import Mathlib

/-!
Verification of the chunked HTTP downloader (`src/main.go`).

The program splits a remote resource of `size` bytes into fixed chunks of
`chunkSize` bytes, issues chunk indices from a shared atomic counter to a
pool of worker goroutines, and each worker fetches its byte range with an
HTTP `Range` request and writes it at the corresponding offset of the
destination file, reporting completed byte counts over a channel to an
aggregator goroutine.

All machine integers of the Go code are `uint64`; they are embedded as
`Nat` with explicit reduction modulo `2 ^ 64` wherever the Go code can
wrap around.
-/

namespace Downloader

/-- `2 ^ 64`, the modulus of Go's `uint64` arithmetic. -/
def U64 : Nat := 2 ^ 64

/-- `start := partCount * chunkSize` (src/main.go line 132), in `uint64`
arithmetic: the product wraps modulo `2 ^ 64`. -/
def chunkStart (chunkSize i : Nat) : Nat := (i * chunkSize) % U64

/-- `end := (partCount+1)*chunkSize - 1` (src/main.go line 137), in `uint64`
arithmetic.  For `chunkSize ≥ 1` the mathematical value `(i+1)*chunkSize - 1`
is nonnegative, so truncated `Nat` subtraction agrees with the Go wrap-around
result after the final `% U64`. -/
def chunkEnd (chunkSize i : Nat) : Nat := ((i + 1) * chunkSize - 1) % U64

/-- `uint64` subtraction `a - b` for `a b < 2 ^ 64` (two's-complement wrap). -/
def sub64 (a b : Nat) : Nat := (a + U64 - b) % U64

/-- The byte count carried by a Completion Notification:
`Status{Downloaded: int(end - start + 1)}` (src/main.go line 153), with the
subtraction and increment performed in `uint64`.  (The final conversion to
`int` reinterprets the bit pattern; for the magnitudes arising in the claims
the value is below `2 ^ 63`, so the `Nat` value is the reported count.) -/
def notifBytes (chunkSize i : Nat) : Nat :=
  (sub64 (chunkEnd chunkSize i) (chunkStart chunkSize i) + 1) % U64

/-- `ceil (size / chunkSize)`: the number of chunks whose start offset lies
inside the resource, assuming no `uint64` overflow.  The spec's
`k = ceil(size / chunkSize) - 1` is `numChunks size chunkSize - 1`. -/
def numChunks (size chunkSize : Nat) : Nat := (size + chunkSize - 1) / chunkSize

/-- A single worker repeatedly claims indices `0, 1, 2, …` from the cursor and
stops at the first index whose `start` is `≥ size` (src/main.go lines 131-135).
Index `i` is issued as work in this sequential run iff every index `j ≤ i`
has `start < size`. -/
def seqIssued (size chunkSize i : Nat) : Prop :=
  ∀ j ≤ i, chunkStart chunkSize j < size

instance (size chunkSize i : Nat) : Decidable (seqIssued size chunkSize i) := by
  unfold seqIssued; infer_instance

/-! ## Worker loop body (src/main.go lines 139-153)

After claiming a chunk `[start, end]`, a worker builds a GET request with a
`Range: bytes=start-end` header, runs `downloaders[i].Download(request,
offsetFile)` — which executes the request and, when the transport call
succeeds, `io.Copy`s the response body into an `io.OffsetWriter` positioned
at `start` — and on a nil error sends `Status{Downloaded: int(end-start+1)}`.
The environment's behaviour for the one chunk is an oracle record. -/

/-- The fields of Go's `http.Response` the model needs.  `statusCode` mirrors
`resp.StatusCode`; `body` is the byte sequence of `resp.Body`. -/
structure HttpResponse where
  statusCode : Nat
  body : List Nat

/-- Oracle for one worker iteration: did `http.NewRequest` succeed, did
`client.Do` succeed, the response delivered, did `io.Copy` run to completion,
and the prefix of the body that reached the file when the copy failed. -/
structure ChunkOracle where
  reqOk : Bool
  transportOk : Bool
  resp : HttpResponse
  copyOk : Bool
  partialWrite : List Nat

/-- Observable effects of one worker iteration. -/
inductive Event
  | wrote (offset : Nat) (data : List Nat)
  | notified (bytes : Nat)
deriving DecidableEq

/-- One worker iteration on the claimed chunk `[start, endOff]`
(src/main.go lines 139-153).  `resp.statusCode` is never inspected — the Go
code checks only the error value of `client.Do`, so any delivered response is
copied into the file at offset `start` and, when the copy returns no error,
a notification carrying `int(endOff - start + 1)` (computed in `uint64`)
is emitted. -/
def workerChunk (start endOff : Nat) (o : ChunkOracle) : List Event :=
  if !o.reqOk then []
  else if !o.transportOk then []
  else if o.copyOk then
    [.wrote start o.resp.body, .notified ((sub64 endOff start + 1) % U64)]
  else [.wrote start o.partialWrite]

/-! ## Run start (src/main.go lines 41-99)

`main` first calls `Exists(name, override)` and returns on `false`; then
`GetFileSize(url)` and `log.Fatal`s on error; then `os.OpenFile` and
`log.Fatal`s on error; only then are the workers spawned.  `GetFileSize`
performs the HEAD request.  Note that `GetFileSize` reads `resp.Header`
without checking the error of `client.Do`: a transport error leaves `resp`
nil and the read panics (the process dies with a nonzero status before any
worker starts). -/

/-- Result of `os.Stat(name)` inside `Exists` (src/main.go line 58). -/
inductive StatResult
  | present
  | absent
  | statError
deriving DecidableEq

/-- `Exists(name, override)` (src/main.go lines 57-71): `true` when the file
is absent, or present with `override` set; `false` when present without
`override`, and `false` on any other stat error regardless of `override`. -/
def Exists (st : StatResult) (override : Bool) : Bool :=
  match st with
  | .present => override
  | .absent => true
  | .statError => false

/-- Environment behaviour of the HEAD phase in `GetFileSize`
(src/main.go lines 41-55). -/
inductive HeadOutcome
  | reqBuildErr
  | transportErr
  | noHeader
  | badHeader
  | ok (n : Nat)
deriving DecidableEq

/-- How `GetFileSize` ends. -/
inductive GetSizeResult
  | err
  | panicked
  | ok (n : Nat)
deriving DecidableEq

/-- `GetFileSize(url)` (src/main.go lines 41-55): request-build failure is
returned as an error; a transport error from `client.Do` leaves `resp` nil,
so the unconditional `resp.Header.Get` dereferences a nil pointer and the
process panics; an empty `Content-Length` header yields an error, as does an
unparsable one via `strconv.ParseUint`; otherwise the parsed length. -/
def GetFileSize (h : HeadOutcome) : GetSizeResult :=
  match h with
  | .reqBuildErr => .err
  | .transportErr => .panicked
  | .noHeader => .err
  | .badHeader => .err
  | .ok n => .ok n

/-- Environment of one run of `main` up to worker spawn. -/
structure Env where
  fileStat : StatResult
  override : Bool
  head : HeadOutcome
  openOk : Bool

/-- How the run start ends: early `return` from `main` (process exits with
status 0), a panic (nonzero status), `log.Fatal` (exit status 1), or the
workers are spawned with the resolved size. -/
inductive RunOutcome
  | earlyReturn
  | panicked
  | fatalExit
  | workersStarted (size : Nat)
deriving DecidableEq

/-- `main` up to the point the workers are spawned (src/main.go lines 87-99). -/
def mainRun (e : Env) : RunOutcome :=
  if !Exists e.fileStat e.override then .earlyReturn
  else match GetFileSize e.head with
    | .panicked => .panicked
    | .err => .fatalExit
    | .ok n => if e.openOk then .workersStarted n else .fatalExit

/-- Whether the run start ever sends the HEAD request: only after `Exists`
returns `true`, and only when `http.NewRequestWithContext` succeeds. -/
def headAttempted (e : Env) : Bool :=
  Exists e.fileStat e.override && !(e.head == .reqBuildErr)

/-- Whether a GET request can ever be sent: GETs are built only inside worker
goroutines, which exist only when the run reaches worker spawn. -/
def getPossible : RunOutcome → Bool
  | .workersStarted _ => true
  | _ => false

/-- Whether the process terminates with a nonzero exit status: `log.Fatal`
exits with status 1, a panic with status 2. -/
def exitNonzero : RunOutcome → Bool
  | .panicked => true
  | .fatalExit => true
  | _ => false

/-! ## The concurrent allocator system (src/main.go lines 109-156)

Interleaving small-step semantics of `concurrencyLevel` worker goroutines
sharing the atomic cursor `partCount`.  A step is one worker's atomic claim
(`atomic.AddUint64(&partCount, 1) - 1` followed by the `start >= size`
check), or the completion or failure of the chunk it is working on.
Download/write outcomes are resolved by the nondeterminism of the step
relation itself (a `working` worker may either complete or fail). -/

/-- The control state of one worker goroutine. -/
inductive WSt
  | idle
  | working (idx : Nat)
  | done
  | failedAt (idx : Nat)
deriving DecidableEq

/-- Global system state: `counter` counts `atomic.AddUint64` calls (the
`uint64` wrap is applied where the claimed index is derived), `workers` the
goroutines' control states, `issued` the log of indices handed out as work
(claims whose `start` was `< size`), `completedLog` the indices whose
download and write finished without error (a Completion Notification was
sent for each). -/
structure Sys where
  counter : Nat
  workers : List WSt
  issued : List Nat
  completedLog : List Nat
deriving DecidableEq

/-- All workers idle, cursor 0, nothing issued. -/
def initSys (n : Nat) : Sys :=
  { counter := 0, workers := List.replicate n .idle, issued := [], completedLog := [] }

/-- One interleaving step of the system, for resource size `size` and chunk
size `c` (src/main.go lines 129-154). -/
inductive Step (size c : Nat) : Sys → Sys → Prop
  | claimWork (s : Sys) (w : Nat)
      (hw : s.workers[w]? = some .idle)
      (hlt : chunkStart c (s.counter % U64) < size) :
      Step size c s
        { counter := s.counter + 1,
          workers := s.workers.set w (.working (s.counter % U64)),
          issued := s.issued ++ [s.counter % U64],
          completedLog := s.completedLog }
  | claimStop (s : Sys) (w : Nat)
      (hw : s.workers[w]? = some .idle)
      (hge : size ≤ chunkStart c (s.counter % U64)) :
      Step size c s
        { counter := s.counter + 1,
          workers := s.workers.set w .done,
          issued := s.issued,
          completedLog := s.completedLog }
  | complete (s : Sys) (w : Nat) (i : Nat)
      (hw : s.workers[w]? = some (.working i)) :
      Step size c s
        { counter := s.counter,
          workers := s.workers.set w .idle,
          issued := s.issued,
          completedLog := s.completedLog ++ [i] }
  | fail (s : Sys) (w : Nat) (i : Nat)
      (hw : s.workers[w]? = some (.working i)) :
      Step size c s
        { counter := s.counter,
          workers := s.workers.set w (.failedAt i),
          issued := s.issued,
          completedLog := s.completedLog }

/-- Reachability under any interleaving. -/
def Steps (size c : Nat) : Sys → Sys → Prop :=
  Relation.ReflTransGen (Step size c)

/-- Inductive invariant of the system for `N` workers: the cursor never runs
past `numChunks` by more than the number of normally-terminated workers; the
issued log is exactly the in-resource prefix of the cursor range; a chunk
being worked on (or stranded at a failed worker) was issued, is not yet
completed, and is held by no other worker; completed chunks were issued and
are completed only once; a normally-terminated worker exists only once the
cursor has passed `numChunks`; and every issued chunk is either completed or
held by exactly one (working or failed) worker. -/
structure Inv (size c N : Nat) (s : Sys) : Prop where
  wlen : s.workers.length = N
  cnt : s.counter ≤ numChunks size c + s.workers.countP (· == WSt.done)
  issuedEq : s.issued
    = (List.range s.counter).filter (fun i => decide (chunkStart c i < size))
  holders : ∀ (w i : Nat),
    (s.workers[w]? = some (.working i) ∨ s.workers[w]? = some (.failedAt i)) →
    i ∈ s.issued ∧ i ∉ s.completedLog ∧
    ∀ (w' : Nat), w' ≠ w →
      ¬(s.workers[w']? = some (.working i) ∨ s.workers[w']? = some (.failedAt i))
  complSub : ∀ i ∈ s.completedLog, i ∈ s.issued
  complNodup : s.completedLog.Nodup
  doneLB : (∃ (w : Nat), s.workers[w]? = some WSt.done) → numChunks size c < s.counter
  issuedFate : ∀ i ∈ s.issued, i ∈ s.completedLog ∨
    ∃ (w : Nat), s.workers[w]? = some (.working i) ∨ s.workers[w]? = some (.failedAt i)

/-! ## Shutdown of the run (src/main.go lines 100-123)

After the worker spawn, `main` returns; its deferred calls run in LIFO
order: `wg.Wait()` (line 114), then `close(status)` (line 110), then
`file.Close()` (line 100); when the last defer finishes the main goroutine
returns and the Go runtime exits the process, killing the aggregator
goroutine wherever it happens to be.  The aggregator (lines 116-123) drains
`status` and, once the channel is closed and empty, leaves its `range` loop
and prints "Download complete".  Nothing synchronises that final print with
the exit of `main`. -/

/-- The shutdown state: `wgWaited` — `wg.Wait()` has returned (every worker
terminated); `chanClosed` — `close(status)` has run; `pending` — statuses
buffered in the channel; `aggPrinted` — the aggregator printed its terminal
"Download complete" line; `fileClosed` — `file.Close()` has run;
`mainExited` — `main` returned and the process ended. -/
structure ShutSt where
  wgWaited : Bool
  chanClosed : Bool
  pending : List Nat
  aggPrinted : Bool
  fileClosed : Bool
  mainExited : Bool
deriving DecidableEq

/-- Shutdown start: workers may still be running, channel open. -/
def shutInit : ShutSt :=
  { wgWaited := false, chanClosed := false, pending := [],
    aggPrinted := false, fileClosed := false, mainExited := false }

/-- Interleaving of the tail of `main` with the aggregator goroutine. -/
inductive ShutStep : ShutSt → ShutSt → Prop
  | waitDone (s : ShutSt) (h : s.wgWaited = false) :
      ShutStep s { s with wgWaited := true }
  | closeChan (s : ShutSt) (h1 : s.wgWaited = true) (h2 : s.chanClosed = false) :
      ShutStep s { s with chanClosed := true }
  | closeFile (s : ShutSt) (h1 : s.chanClosed = true) (h2 : s.fileClosed = false) :
      ShutStep s { s with fileClosed := true }
  | exitMain (s : ShutSt) (h1 : s.fileClosed = true) (h2 : s.mainExited = false) :
      ShutStep s { s with mainExited := true }
  | aggRecv (s : ShutSt) (x : Nat) (rest : List Nat)
      (h1 : s.mainExited = false) (h2 : s.pending = x :: rest) :
      ShutStep s { s with pending := rest }
  | aggFinish (s : ShutSt) (h1 : s.mainExited = false) (h2 : s.chanClosed = true)
      (h3 : s.pending = []) (h4 : s.aggPrinted = false) :
      ShutStep s { s with aggPrinted := true }

/-- Reachability of shutdown states. -/
def ShutSteps : ShutSt → ShutSt → Prop :=
  Relation.ReflTransGen ShutStep

/-! ## Helper lemmas -/

/-- `i < ceil(size/c)` iff chunk `i`'s mathematical start offset `i * c` lies
strictly inside the resource. -/
theorem lt_numChunks_iff {size c : Nat} (hc : 0 < c) (i : Nat) :
    i < numChunks size c ↔ i * c < size := by
  unfold numChunks
  rw [Nat.lt_iff_add_one_le, Nat.le_div_iff_mul_le hc, Nat.add_mul, Nat.one_mul]
  omega

/-- `ceil(size/c) * c` covers the resource. -/
theorem size_le_numChunks_mul {size c : Nat} (hc : 0 < c) :
    size ≤ numChunks size c * c := by
  by_contra h
  exact absurd ((lt_numChunks_iff hc (numChunks size c)).mpr (by omega))
    (lt_irrefl _)

/-- Without `uint64` overflow the start offset is the mathematical one. -/
theorem chunkStart_eq {size c : Nat}
    (hov : numChunks size c * c < U64) {i : Nat} (hi : i ≤ numChunks size c) :
    chunkStart c i = i * c := by
  have : i * c ≤ numChunks size c * c := Nat.mul_le_mul_right c hi
  exact Nat.mod_eq_of_lt (by omega)

/-- Without `uint64` overflow the end offset is the mathematical one. -/
theorem chunkEnd_eq {size c : Nat}
    (hov : numChunks size c * c < U64) {i : Nat} (hi : i < numChunks size c) :
    chunkEnd c i = (i + 1) * c - 1 := by
  have : (i + 1) * c ≤ numChunks size c * c := Nat.mul_le_mul_right c hi
  exact Nat.mod_eq_of_lt (by omega)

/-! ## C1: allocator range arithmetic -/

/-- **C1** (amended).  For every `chunkSize > 0` such that the chunk
arithmetic does not overflow `uint64` — `ceil(size/chunkSize) * chunkSize <
2^64` — repeatedly requesting chunks until the allocator signals
no-more-work issues exactly the indices `0, 1, …, ceil(size/chunkSize) - 1`;
each issued index `i` maps to `start = i * chunkSize` and
`end = (i+1) * chunkSize - 1`; the issued ranges are pairwise disjoint,
jointly cover `[0, size)`, and every range but the final one ends strictly
inside the resource.  (Without the no-overflow condition the `uint64`
multiplication in `start := partCount * chunkSize` wraps and indices beyond
`k` are issued; see the counterexample.) -/
theorem C1_allocator_ranges (size c : Nat) (hc : 0 < c)
    (hov : numChunks size c * c < U64) :
    (∀ i, seqIssued size c i ↔ i < numChunks size c) ∧
    (∀ i, i < numChunks size c →
      chunkStart c i = i * c ∧ chunkEnd c i = (i + 1) * c - 1) ∧
    (∀ i j, i < numChunks size c → j < numChunks size c → i ≠ j →
      chunkEnd c i < chunkStart c j ∨ chunkEnd c j < chunkStart c i) ∧
    (∀ b, b < size → ∃ i, i < numChunks size c ∧
      chunkStart c i ≤ b ∧ b ≤ chunkEnd c i) ∧
    (∀ i, i + 1 < numChunks size c → chunkEnd c i < size) := by
  have hends : ∀ i j, i < numChunks size c → j < numChunks size c → i < j →
      chunkEnd c i < chunkStart c j := by
    intro i j hi hj hij
    rw [chunkEnd_eq hov hi, chunkStart_eq hov (le_of_lt hj)]
    have h1 : (i + 1) * c ≤ j * c := Nat.mul_le_mul_right c hij
    have h2 : 1 ≤ (i + 1) * c := Nat.mul_pos (Nat.succ_pos i) hc
    omega
  refine ⟨?_, ?_, ?_, ?_, ?_⟩
  · intro i
    constructor
    · intro h
      by_contra hge
      have hn : chunkStart c (numChunks size c) < size :=
        h (numChunks size c) (by omega)
      rw [chunkStart_eq hov le_rfl] at hn
      exact absurd hn (not_lt.mpr (size_le_numChunks_mul hc))
    · intro hi j hj
      rw [chunkStart_eq hov (le_of_lt (lt_of_le_of_lt hj hi))]
      exact (lt_numChunks_iff hc j).mp (lt_of_le_of_lt hj hi)
  · intro i hi
    exact ⟨chunkStart_eq hov (le_of_lt hi), chunkEnd_eq hov hi⟩
  · intro i j hi hj hne
    rcases Nat.lt_or_ge i j with h | h
    · exact Or.inl (hends i j hi hj h)
    · exact Or.inr (hends j i hj hi (lt_of_le_of_ne h (Ne.symm hne)))
  · intro b hb
    have hi : b / c < numChunks size c :=
      (lt_numChunks_iff hc _).mpr (lt_of_le_of_lt (Nat.div_mul_le_self b c) hb)
    refine ⟨b / c, hi, ?_, ?_⟩
    · rw [chunkStart_eq hov (le_of_lt hi)]
      exact Nat.div_mul_le_self b c
    · rw [chunkEnd_eq hov hi]
      have h1 : c * (b / c) + b % c = b := Nat.div_add_mod b c
      have h2 : b % c < c := Nat.mod_lt b hc
      have h3 : (b / c + 1) * c = b / c * c + c := by ring
      have h4 : c * (b / c) = b / c * c := Nat.mul_comm c (b / c)
      omega
  · intro i hi
    have := hends i (i + 1) (by omega) hi (by omega)
    have hlt : chunkStart c (i + 1) < size := by
      rw [chunkStart_eq hov (le_of_lt hi)]
      exact (lt_numChunks_iff hc (i + 1)).mp hi
    omega

/-- Witness for C1 at `size = 25`, `chunkSize = 10`
(three chunks `[0,9] [10,19] [20,29]`, the spec's Scenario A). -/
theorem C1_allocator_ranges_witness :
    (∀ i, seqIssued 25 10 i ↔ i < numChunks 25 10) ∧
    (∀ i, i < numChunks 25 10 →
      chunkStart 10 i = i * 10 ∧ chunkEnd 10 i = (i + 1) * 10 - 1) ∧
    (∀ i j, i < numChunks 25 10 → j < numChunks 25 10 → i ≠ j →
      chunkEnd 10 i < chunkStart 10 j ∨ chunkEnd 10 j < chunkStart 10 i) ∧
    (∀ b, b < 25 → ∃ i, i < numChunks 25 10 ∧
      chunkStart 10 i ≤ b ∧ b ≤ chunkEnd 10 i) ∧
    (∀ i, i + 1 < numChunks 25 10 → chunkEnd 10 i < 25) :=
  C1_allocator_ranges 25 10 (by decide) (by decide)

/-- **C1 counterexample**.  The claim quantifies over *every* resource size
and chunk size, but the chunk arithmetic is `uint64`: at
`size = 2^64 - 1`, `chunkSize = 2^64 - 2` we have
`k = ceil(size/chunkSize) - 1 = 1`, yet index `2` is also issued —
`start = 2 * (2^64 - 2) mod 2^64 = 2^64 - 4 < size` — so the issued index
sequence is not `0, …, k` (indeed no index with `start ≥ size` is ever
reached and the allocator never signals no-more-work). -/
theorem C1_counterexample :
    seqIssued (U64 - 1) (U64 - 2) 2 ∧ ¬(2 < numChunks (U64 - 1) (U64 - 2)) := by
  constructor
  · decide
  · decide

/-! ## Invariant preservation for the concurrent system -/

/-- Balance of `countP` under a single `List.set`. -/
theorem countP_set_add {α : Type} (p : α → Bool) :
    ∀ (l : List α) (w : Nat) (a v : α), l[w]? = some a →
      (if p a then 1 else 0) + (l.set w v).countP p
        = l.countP p + (if p v then 1 else 0)
  | [], w, _, _, h => by simp at h
  | x :: xs, 0, a, v, h => by
    simp only [List.getElem?_cons_zero, Option.some.injEq] at h
    subst h
    simp only [List.set_cons_zero, List.countP_cons]
    omega
  | x :: xs, w + 1, a, v, h => by
    simp only [List.getElem?_cons_succ] at h
    have ih := countP_set_add p xs w a v h
    simp only [List.set_cons_succ, List.countP_cons]
    omega

/-- The cursor stays below `numChunks + N`. -/
theorem Inv.counter_le {size c N : Nat} {s : Sys} (h : Inv size c N s) :
    s.counter ≤ numChunks size c + N := by
  have h0 := h.wlen
  have h1 := h.cnt
  have h2 : s.workers.countP (· == WSt.done) ≤ s.workers.length :=
    List.countP_le_length _
  omega

/-- `numChunks + N` fits in a `uint64` when the chunk arithmetic does. -/
theorem numChunks_add_lt_U64 {size c N : Nat} (hc : 0 < c)
    (hov : (numChunks size c + N) * c < U64) : numChunks size c + N < U64 :=
  lt_of_le_of_lt (Nat.le_mul_of_pos_right _ hc) hov

/-- Below `numChunks + N` the start offset is the mathematical product. -/
theorem chunkStart_eq_of_le {size c N : Nat}
    (hov : (numChunks size c + N) * c < U64) {v : Nat}
    (hv : v ≤ numChunks size c + N) : chunkStart c v = v * c := by
  have : v * c ≤ (numChunks size c + N) * c := Nat.mul_le_mul_right c hv
  exact Nat.mod_eq_of_lt (by omega)

/-- A claim that sees `start < size` happens strictly before chunk
`numChunks`. -/
theorem counter_small {size c N : Nat} {s : Sys} (hc : 0 < c)
    (hov : (numChunks size c + N) * c < U64) (hinv : Inv size c N s)
    (hlt : chunkStart c (s.counter % U64) < size) :
    s.counter < numChunks size c := by
  have hle := hinv.counter_le
  have hU := numChunks_add_lt_U64 hc hov
  rw [Nat.mod_eq_of_lt (by omega)] at hlt
  rw [chunkStart_eq_of_le hov hle] at hlt
  exact (lt_numChunks_iff hc _).mpr hlt

/-- A claim that sees `start ≥ size` happens at or after chunk `numChunks`. -/
theorem counter_large {size c N : Nat} {s : Sys} (hc : 0 < c)
    (hov : (numChunks size c + N) * c < U64) (hinv : Inv size c N s)
    (hge : size ≤ chunkStart c (s.counter % U64)) :
    numChunks size c ≤ s.counter := by
  have hle := hinv.counter_le
  have hU := numChunks_add_lt_U64 hc hov
  rw [Nat.mod_eq_of_lt (by omega)] at hge
  rw [chunkStart_eq_of_le hov hle] at hge
  by_contra hlt
  exact absurd ((lt_numChunks_iff hc _).mp (by omega)) (not_lt.mpr hge)

/-- Issued chunks lie below the cursor and start inside the resource. -/
theorem mem_issued {size c N : Nat} {s : Sys} (hinv : Inv size c N s) {i : Nat}
    (h : i ∈ s.issued) : i < s.counter ∧ chunkStart c i < size := by
  rw [hinv.issuedEq] at h
  have := List.mem_filter.mp h
  exact ⟨List.mem_range.mp this.1, of_decide_eq_true this.2⟩

/-- The issued log never repeats an index. -/
theorem issued_nodup {size c N : Nat} {s : Sys} (hinv : Inv size c N s) :
    s.issued.Nodup := by
  rw [hinv.issuedEq]
  exact (List.nodup_range _).filter _

/-- The invariant holds at the initial state. -/
theorem inv_init (size c N : Nat) : Inv size c N (initSys N) := by
  refine ⟨?_, ?_, ?_, ?_, ?_, ?_, ?_, ?_⟩
  · simp [initSys]
  · simp [initSys]
  · simp [initSys]
  · intro w i hw
    exfalso
    simp only [initSys, List.getElem?_replicate] at hw
    rcases hw with hw | hw <;> split at hw <;> simp_all
  · simp [initSys]
  · simp [initSys]
  · intro ⟨w, hw⟩
    exfalso
    simp only [initSys, List.getElem?_replicate] at hw
    split at hw <;> simp_all
  · simp [initSys]

/-- The invariant is preserved by every interleaving step. -/
theorem inv_step {size c N : Nat} {s s' : Sys} (hc : 0 < c)
    (hov : (numChunks size c + N) * c < U64) (hinv : Inv size c N s)
    (hstep : Step size c s s') : Inv size c N s' := by
  have hle := hinv.counter_le
  have hU := numChunks_add_lt_U64 hc hov
  have hmod : s.counter % U64 = s.counter := Nat.mod_eq_of_lt (by omega)
  cases hstep with
  | claimWork w hw hlt =>
    obtain ⟨hwlt, -⟩ := List.getElem?_eq_some.mp hw
    rw [hmod] at hlt
    rw [hmod]
    have hksm : s.counter < numChunks size c :=
      counter_small hc hov hinv (by rwa [hmod])
    have hnotmem : s.counter ∉ s.issued := fun hmem =>
      absurd (mem_issued hinv hmem).1 (lt_irrefl _)
    have hnotcompl : s.counter ∉ s.completedLog := fun hmem =>
      hnotmem (hinv.complSub _ hmem)
    refine ⟨?_, ?_, ?_, ?_, ?_, ?_, ?_, ?_⟩
    · simpa using hinv.wlen
    · have hb := countP_set_add (· == WSt.done) s.workers w .idle
        (.working s.counter) hw
      simp only [show ((WSt.idle == WSt.done) = false) from rfl,
        show ∀ j, ((WSt.working j == WSt.done) = false) from fun _ => rfl,
        Bool.false_eq_true, if_false, Nat.zero_add, Nat.add_zero] at hb
      have := hinv.cnt
      simp only []
      omega
    · simp only [List.range_succ, List.filter_append, ← hinv.issuedEq,
        List.filter_cons, List.filter_nil, decide_eq_true hlt, if_true]
    · intro w₁ i hI
      by_cases hww : w₁ = w
      · subst hww
        rw [List.getElem?_set_self hwlt] at hI
        have hik : i = s.counter := by
          rcases hI with hI | hI
          · exact (WSt.working.injEq _ _ ▸ (Option.some.injEq _ _ ▸ hI)).symm
          · cases Option.some.injEq _ _ ▸ hI
        subst hik
        refine ⟨by simp, hnotcompl, ?_⟩
        intro w' hne
        rw [List.getElem?_set_ne (Ne.symm hne)]
        intro hcontra
        exact hnotmem (hinv.holders w' _ hcontra).1
      · rw [List.getElem?_set_ne (fun h => hww h.symm)] at hI
        obtain ⟨hiIss, hiNot, huniq⟩ := hinv.holders w₁ i hI
        refine ⟨by simp [hiIss], hiNot, ?_⟩
        intro w' hne
        by_cases hw'w : w' = w
        · subst hw'w
          rw [List.getElem?_set_self hwlt]
          intro hcontra
          have hik : s.counter = i := by
            rcases hcontra with hC | hC
            · exact WSt.working.injEq _ _ ▸ (Option.some.injEq _ _ ▸ hC)
            · cases Option.some.injEq _ _ ▸ hC
          exact hnotmem (hik ▸ hiIss)
        · rw [List.getElem?_set_ne (fun h => hw'w h.symm)]
          exact huniq w' hne
    · intro i hi
      exact List.mem_append_left _ (hinv.complSub i hi)
    · exact hinv.complNodup
    · intro ⟨w₂, hw₂⟩
      simp only [] at hw₂
      by_cases hw2w : w₂ = w
      · subst hw2w
        rw [List.getElem?_set_self hwlt] at hw₂
        cases Option.some.injEq _ _ ▸ hw₂
      · rw [List.getElem?_set_ne (fun h => hw2w h.symm)] at hw₂
        have := hinv.doneLB ⟨w₂, hw₂⟩
        simp only []
        omega
    · intro i hi
      simp only [List.mem_append, List.mem_singleton] at hi
      rcases hi with hi | hi
      · rcases hinv.issuedFate i hi with hfate | ⟨w₂, hfate⟩
        · exact Or.inl hfate
        · have hw2w : w₂ ≠ w := by
            intro h
            subst h
            rw [hw] at hfate
            rcases hfate with hF | hF <;> cases Option.some.injEq _ _ ▸ hF
          exact Or.inr ⟨w₂, by
            rw [List.getElem?_set_ne (fun h => hw2w h.symm)]; exact hfate⟩
      · subst hi
        exact Or.inr ⟨w, by rw [List.getElem?_set_self hwlt]; exact Or.inl rfl⟩
  | claimStop w hw hge =>
    obtain ⟨hwlt, -⟩ := List.getElem?_eq_some.mp hw
    rw [hmod] at hge
    have hnk : numChunks size c ≤ s.counter :=
      counter_large hc hov hinv (by rwa [hmod])
    refine ⟨?_, ?_, ?_, ?_, ?_, ?_, ?_, ?_⟩
    · simpa using hinv.wlen
    · have hb := countP_set_add (· == WSt.done) s.workers w .idle .done hw
      simp only [show ((WSt.idle == WSt.done) = false) from rfl,
        show ((WSt.done == WSt.done) = true) from rfl,
        Bool.false_eq_true, if_false, if_true, Nat.zero_add] at hb
      have := hinv.cnt
      simp only []
      omega
    · simp only [List.range_succ, List.filter_append, ← hinv.issuedEq,
        List.filter_cons, List.filter_nil, decide_eq_false (not_lt.mpr hge),
        Bool.false_eq_true, if_false, List.append_nil]
    · intro w₁ i hI
      simp only [] at hI
      by_cases hww : w₁ = w
      · subst hww
        rw [List.getElem?_set_self hwlt] at hI
        rcases hI with hI | hI <;> cases Option.some.injEq _ _ ▸ hI
      · rw [List.getElem?_set_ne (fun h => hww h.symm)] at hI
        obtain ⟨hiIss, hiNot, huniq⟩ := hinv.holders w₁ i hI
        refine ⟨hiIss, hiNot, ?_⟩
        intro w' hne
        by_cases hw'w : w' = w
        · subst hw'w
          rw [List.getElem?_set_self hwlt]
          intro hcontra
          rcases hcontra with hC | hC <;> cases Option.some.injEq _ _ ▸ hC
        · rw [List.getElem?_set_ne (fun h => hw'w h.symm)]
          exact huniq w' hne
    · exact hinv.complSub
    · exact hinv.complNodup
    · intro
      simp only []
      omega
    · intro i hi
      rcases hinv.issuedFate i hi with hfate | ⟨w₂, hfate⟩
      · exact Or.inl hfate
      · have hw2w : w₂ ≠ w := by
          intro h
          subst h
          rw [hw] at hfate
          rcases hfate with hF | hF <;> cases Option.some.injEq _ _ ▸ hF
        exact Or.inr ⟨w₂, by
          rw [List.getElem?_set_ne (fun h => hw2w h.symm)]; exact hfate⟩
  | complete w i hw =>
    obtain ⟨hwlt, -⟩ := List.getElem?_eq_some.mp hw
    obtain ⟨hiIss, hiNot, huniq⟩ := hinv.holders w i (Or.inl hw)
    refine ⟨?_, ?_, ?_, ?_, ?_, ?_, ?_, ?_⟩
    · simpa using hinv.wlen
    · have hb := countP_set_add (· == WSt.done) s.workers w (.working i) .idle hw
      simp only [show ∀ j, ((WSt.working j == WSt.done) = false) from fun _ => rfl,
        show ((WSt.idle == WSt.done) = false) from rfl,
        if_false, Nat.zero_add, Nat.add_zero] at hb
      have := hinv.cnt
      simp only []
      omega
    · exact hinv.issuedEq
    · intro w₁ j hI
      simp only [] at hI
      by_cases hww : w₁ = w
      · subst hww
        rw [List.getElem?_set_self hwlt] at hI
        rcases hI with hI | hI <;> cases Option.some.injEq _ _ ▸ hI
      · rw [List.getElem?_set_ne (fun h => hww h.symm)] at hI
        obtain ⟨hjIss, hjNot, hjUniq⟩ := hinv.holders w₁ j hI
        have hji : j ≠ i := by
          intro h
          subst h
          exact huniq w₁ hww hI
        refine ⟨hjIss, ?_, ?_⟩
        · simp only [List.mem_append, List.mem_singleton]
          rintro (h | h)
          · exact hjNot h
          · exact hji h
        · intro w' hne
          by_cases hw'w : w' = w
          · subst hw'w
            rw [List.getElem?_set_self hwlt]
            intro hcontra
            rcases hcontra with hC | hC <;> cases Option.some.injEq _ _ ▸ hC
          · rw [List.getElem?_set_ne (fun h => hw'w h.symm)]
            exact hjUniq w' hne
    · intro j hj
      simp only [List.mem_append, List.mem_singleton] at hj
      rcases hj with hj | hj
      · exact hinv.complSub j hj
      · exact hj ▸ hiIss
    · rw [List.nodup_append]
      refine ⟨hinv.complNodup, List.nodup_singleton i, ?_⟩
      intro a ha hb
      simp only [List.mem_singleton] at hb
      exact hiNot (hb ▸ ha)
    · intro ⟨w₂, hw₂⟩
      simp only [] at hw₂
      by_cases hw2w : w₂ = w
      · subst hw2w
        rw [List.getElem?_set_self hwlt] at hw₂
        cases Option.some.injEq _ _ ▸ hw₂
      · rw [List.getElem?_set_ne (fun h => hw2w h.symm)] at hw₂
        exact hinv.doneLB ⟨w₂, hw₂⟩
    · intro j hj
      rcases hinv.issuedFate j hj with hfate | ⟨w₂, hfate⟩
      · exact Or.inl (List.mem_append_left _ hfate)
      · by_cases hw2w : w₂ = w
        · subst hw2w
          have hji : j = i := by
            rw [hw] at hfate
            rcases hfate with hF | hF
            · exact (WSt.working.injEq _ _ ▸ (Option.some.injEq _ _ ▸ hF)).symm
            · cases Option.some.injEq _ _ ▸ hF
          exact Or.inl (by simp [hji])
        · exact Or.inr ⟨w₂, by
            rw [List.getElem?_set_ne (fun h => hw2w h.symm)]; exact hfate⟩
  | fail w i hw =>
    obtain ⟨hwlt, -⟩ := List.getElem?_eq_some.mp hw
    obtain ⟨hiIss, hiNot, huniq⟩ := hinv.holders w i (Or.inl hw)
    refine ⟨?_, ?_, ?_, ?_, ?_, ?_, ?_, ?_⟩
    · simpa using hinv.wlen
    · have hb := countP_set_add (· == WSt.done) s.workers w (.working i)
        (.failedAt i) hw
      simp only [show ∀ j, ((WSt.working j == WSt.done) = false) from fun _ => rfl,
        show ∀ j, ((WSt.failedAt j == WSt.done) = false) from fun _ => rfl,
        if_false, Nat.zero_add, Nat.add_zero] at hb
      have := hinv.cnt
      simp only []
      omega
    · exact hinv.issuedEq
    · intro w₁ j hI
      simp only [] at hI
      by_cases hww : w₁ = w
      · subst hww
        rw [List.getElem?_set_self hwlt] at hI
        have hji : j = i := by
          rcases hI with hI | hI
          · cases Option.some.injEq _ _ ▸ hI
          · exact (WSt.failedAt.injEq _ _ ▸ (Option.some.injEq _ _ ▸ hI)).symm
        subst hji
        refine ⟨hiIss, hiNot, ?_⟩
        intro w' hne
        rw [List.getElem?_set_ne (Ne.symm hne)]
        exact huniq w' hne
      · rw [List.getElem?_set_ne (fun h => hww h.symm)] at hI
        obtain ⟨hjIss, hjNot, hjUniq⟩ := hinv.holders w₁ j hI
        have hji : j ≠ i := by
          intro h
          subst h
          exact huniq w₁ hww hI
        refine ⟨hjIss, hjNot, ?_⟩
        intro w' hne
        by_cases hw'w : w' = w
        · subst hw'w
          rw [List.getElem?_set_self hwlt]
          intro hcontra
          rcases hcontra with hC | hC
          · cases Option.some.injEq _ _ ▸ hC
          · exact hji (WSt.failedAt.injEq _ _ ▸ (Option.some.injEq _ _ ▸ hC)).symm
        · rw [List.getElem?_set_ne (fun h => hw'w h.symm)]
          exact hjUniq w' hne
    · exact hinv.complSub
    · exact hinv.complNodup
    · intro ⟨w₂, hw₂⟩
      simp only [] at hw₂
      by_cases hw2w : w₂ = w
      · subst hw2w
        rw [List.getElem?_set_self hwlt] at hw₂
        cases Option.some.injEq _ _ ▸ hw₂
      · rw [List.getElem?_set_ne (fun h => hw2w h.symm)] at hw₂
        exact hinv.doneLB ⟨w₂, hw₂⟩
    · intro j hj
      rcases hinv.issuedFate j hj with hfate | ⟨w₂, hfate⟩
      · exact Or.inl hfate
      · by_cases hw2w : w₂ = w
        · subst hw2w
          have hji : j = i := by
            rw [hw] at hfate
            rcases hfate with hF | hF
            · exact (WSt.working.injEq _ _ ▸ (Option.some.injEq _ _ ▸ hF)).symm
            · cases Option.some.injEq _ _ ▸ hF
          exact Or.inr ⟨w₂, by
            rw [List.getElem?_set_self hwlt]; exact Or.inr (by rw [hji])⟩
        · exact Or.inr ⟨w₂, by
            rw [List.getElem?_set_ne (fun h => hw2w h.symm)]; exact hfate⟩

/-- Every reachable state satisfies the invariant. -/
theorem inv_reachable {size c N : Nat} {s : Sys} (hc : 0 < c)
    (hov : (numChunks size c + N) * c < U64)
    (h : Steps size c (initSys N) s) : Inv size c N s := by
  induction h with
  | refl => exact inv_init size c N
  | tail _ hstep ih => exact inv_step hc hov ih hstep

/-- Filtering `range m` by a predicate that holds exactly below `n` yields
`range (min n m)`. -/
theorem filter_range_min {p : Nat → Bool} {n : Nat} :
    ∀ m : Nat, (∀ i, i < m → (p i = true ↔ i < n)) →
      (List.range m).filter p = List.range (min n m)
  | 0, _ => by simp
  | m + 1, h => by
    rw [List.range_succ, List.filter_append,
      filter_range_min m (fun i hi => h i (by omega))]
    by_cases hm : m < n
    · have h1 : p m = true := (h m (by omega)).mpr hm
      have h2 : min n (m + 1) = m + 1 := by omega
      have h3 : min n m = m := by omega
      rw [h2, h3, List.range_succ]
      simp [List.filter_cons, h1]
    · have h1 : p m = false := by
        rcases hp : p m with _ | _
        · rfl
        · exact absurd ((h m (by omega)).mp hp) hm
      have h2 : min n (m + 1) = min n m := by omega
      rw [h2]
      simp [List.filter_cons, h1]

/-- Once some worker has terminated normally, the issued log is exactly
`[0, 1, …, numChunks - 1]`. -/
theorem issued_eq_range {size c N : Nat} {s : Sys} (hc : 0 < c)
    (hov : (numChunks size c + N) * c < U64) (hinv : Inv size c N s)
    (hdone : ∃ (w : Nat), s.workers[w]? = some WSt.done) :
    s.issued = List.range (numChunks size c) := by
  have hnc : numChunks size c < s.counter := hinv.doneLB hdone
  have hle := hinv.counter_le
  rw [hinv.issuedEq]
  have hmin : min (numChunks size c) s.counter = numChunks size c := by omega
  rw [← hmin]
  apply filter_range_min
  intro i hi
  have hiN : i ≤ numChunks size c + N := by omega
  rw [chunkStart_eq_of_le hov hiN]
  constructor
  · intro hp
    exact (lt_numChunks_iff hc i).mpr (of_decide_eq_true hp)
  · intro hin
    exact decide_eq_true ((lt_numChunks_iff hc i).mp hin)

/-- In a state where every worker has terminated normally there is a
`done` worker (provided there is at least one worker). -/
theorem done_mem {size c N : Nat} {s : Sys} (hinv : Inv size c N s)
    (hN : 0 < N) (hterm : ∀ st ∈ s.workers, st = WSt.done) :
    ∃ (w : Nat), s.workers[w]? = some WSt.done := by
  have hlen : 0 < s.workers.length := by rw [hinv.wlen]; exact hN
  refine ⟨0, ?_⟩
  rw [List.getElem?_eq_getElem hlen, hterm _ (List.getElem_mem hlen)]

/-- Under the no-overflow condition each issued chunk's notification carries
exactly `chunkSize` bytes. -/
theorem notifBytes_eq_chunkSize {size c N : Nat} (hc : 0 < c)
    (hov : (numChunks size c + N) * c < U64) {i : Nat}
    (hi : i < numChunks size c) : notifBytes c i = c := by
  have hov0 : numChunks size c * c < U64 :=
    lt_of_le_of_lt (Nat.mul_le_mul_right c (Nat.le_add_right _ _)) hov
  have hcU : c < U64 := by
    have h1 : 1 ≤ numChunks size c := by omega
    have : 1 * c ≤ numChunks size c * c := Nat.mul_le_mul_right c h1
    omega
  unfold notifBytes sub64
  rw [chunkStart_eq hov0 (le_of_lt hi), chunkEnd_eq hov0 hi]
  have h1 : i * c + c = (i + 1) * c := by ring
  have h2 : (i + 1) * c - 1 + U64 - i * c = c - 1 + U64 := by omega
  have h3 : (c - 1 + U64) % U64 = c - 1 := by
    rw [Nat.add_mod_right]
    exact Nat.mod_eq_of_lt (by omega)
  rw [h2, h3, Nat.sub_add_cancel hc]
  exact Nat.mod_eq_of_lt hcU

/-- `ceil(size/c) * c = size` exactly when `c` divides `size`. -/
theorem numChunks_mul_eq_iff {size c : Nat} (hc : 0 < c) :
    numChunks size c * c = size ↔ c ∣ size := by
  constructor
  · intro h
    exact ⟨numChunks size c, by rw [Nat.mul_comm c]; exact h.symm⟩
  · rintro ⟨k, rfl⟩
    unfold numChunks
    have h1 : c * k + c - 1 = c * k + (c - 1) := by omega
    rw [h1, Nat.mul_add_div hc, Nat.div_eq_of_lt (by omega)]
    ring

/-! ## Concrete interleavings, used as witnesses -/

/-- A complete 1-worker run at `size = 25`, `chunkSize = 10`: chunks 0, 1, 2
all succeed. -/
theorem trace25_1 : Steps 25 10 (initSys 1)
    { counter := 4, workers := [WSt.done], issued := [0, 1, 2],
      completedLog := [0, 1, 2] } := by
  have h0 : Step 25 10 (initSys 1)
      { counter := 1, workers := [WSt.working 0], issued := [0], completedLog := [] } :=
    Step.claimWork (initSys 1) 0 (by decide) (by decide)
  have h1 : Step 25 10
      { counter := 1, workers := [WSt.working 0], issued := [0], completedLog := [] }
      { counter := 1, workers := [WSt.idle], issued := [0], completedLog := [0] } :=
    Step.complete _ 0 0 (by decide)
  have h2 : Step 25 10
      { counter := 1, workers := [WSt.idle], issued := [0], completedLog := [0] }
      { counter := 2, workers := [WSt.working 1], issued := [0, 1], completedLog := [0] } :=
    Step.claimWork _ 0 (by decide) (by decide)
  have h3 : Step 25 10
      { counter := 2, workers := [WSt.working 1], issued := [0, 1], completedLog := [0] }
      { counter := 2, workers := [WSt.idle], issued := [0, 1], completedLog := [0, 1] } :=
    Step.complete _ 0 1 (by decide)
  have h4 : Step 25 10
      { counter := 2, workers := [WSt.idle], issued := [0, 1], completedLog := [0, 1] }
      { counter := 3, workers := [WSt.working 2], issued := [0, 1, 2], completedLog := [0, 1] } :=
    Step.claimWork _ 0 (by decide) (by decide)
  have h5 : Step 25 10
      { counter := 3, workers := [WSt.working 2], issued := [0, 1, 2], completedLog := [0, 1] }
      { counter := 3, workers := [WSt.idle], issued := [0, 1, 2], completedLog := [0, 1, 2] } :=
    Step.complete _ 0 2 (by decide)
  have h6 : Step 25 10
      { counter := 3, workers := [WSt.idle], issued := [0, 1, 2], completedLog := [0, 1, 2] }
      { counter := 4, workers := [WSt.done], issued := [0, 1, 2], completedLog := [0, 1, 2] } :=
    Step.claimStop _ 0 (by decide) (by decide)
  exact Relation.ReflTransGen.head h0 (Relation.ReflTransGen.head h1
    (Relation.ReflTransGen.head h2 (Relation.ReflTransGen.head h3
      (Relation.ReflTransGen.head h4 (Relation.ReflTransGen.head h5
        (Relation.ReflTransGen.single h6))))))

/-- A complete 2-worker run at `size = 25`, `chunkSize = 10` in which worker
1's download of chunk 1 fails; worker 0 drains the allocator. -/
theorem trace25_fail : Steps 25 10 (initSys 2)
    { counter := 4, workers := [WSt.done, WSt.failedAt 1], issued := [0, 1, 2],
      completedLog := [0, 2] } := by
  have h0 : Step 25 10 (initSys 2)
      { counter := 1, workers := [WSt.working 0, WSt.idle], issued := [0],
        completedLog := [] } :=
    Step.claimWork (initSys 2) 0 (by decide) (by decide)
  have h1 : Step 25 10
      { counter := 1, workers := [WSt.working 0, WSt.idle], issued := [0],
        completedLog := [] }
      { counter := 1, workers := [WSt.idle, WSt.idle], issued := [0],
        completedLog := [0] } :=
    Step.complete _ 0 0 (by decide)
  have h2 : Step 25 10
      { counter := 1, workers := [WSt.idle, WSt.idle], issued := [0],
        completedLog := [0] }
      { counter := 2, workers := [WSt.idle, WSt.working 1], issued := [0, 1],
        completedLog := [0] } :=
    Step.claimWork _ 1 (by decide) (by decide)
  have h3 : Step 25 10
      { counter := 2, workers := [WSt.idle, WSt.working 1], issued := [0, 1],
        completedLog := [0] }
      { counter := 2, workers := [WSt.idle, WSt.failedAt 1], issued := [0, 1],
        completedLog := [0] } :=
    Step.fail _ 1 1 (by decide)
  have h4 : Step 25 10
      { counter := 2, workers := [WSt.idle, WSt.failedAt 1], issued := [0, 1],
        completedLog := [0] }
      { counter := 3, workers := [WSt.working 2, WSt.failedAt 1], issued := [0, 1, 2],
        completedLog := [0] } :=
    Step.claimWork _ 0 (by decide) (by decide)
  have h5 : Step 25 10
      { counter := 3, workers := [WSt.working 2, WSt.failedAt 1], issued := [0, 1, 2],
        completedLog := [0] }
      { counter := 3, workers := [WSt.idle, WSt.failedAt 1], issued := [0, 1, 2],
        completedLog := [0, 2] } :=
    Step.complete _ 0 2 (by decide)
  have h6 : Step 25 10
      { counter := 3, workers := [WSt.idle, WSt.failedAt 1], issued := [0, 1, 2],
        completedLog := [0, 2] }
      { counter := 4, workers := [WSt.done, WSt.failedAt 1], issued := [0, 1, 2],
        completedLog := [0, 2] } :=
    Step.claimStop _ 0 (by decide) (by decide)
  exact Relation.ReflTransGen.head h0 (Relation.ReflTransGen.head h1
    (Relation.ReflTransGen.head h2 (Relation.ReflTransGen.head h3
      (Relation.ReflTransGen.head h4 (Relation.ReflTransGen.head h5
        (Relation.ReflTransGen.single h6))))))

/-- A complete 1-worker run at `size = 10`, `chunkSize = 10`. -/
theorem trace10_1 : Steps 10 10 (initSys 1)
    { counter := 2, workers := [WSt.done], issued := [0], completedLog := [0] } := by
  have h0 : Step 10 10 (initSys 1)
      { counter := 1, workers := [WSt.working 0], issued := [0], completedLog := [] } :=
    Step.claimWork (initSys 1) 0 (by decide) (by decide)
  have h1 : Step 10 10
      { counter := 1, workers := [WSt.working 0], issued := [0], completedLog := [] }
      { counter := 1, workers := [WSt.idle], issued := [0], completedLog := [0] } :=
    Step.complete _ 0 0 (by decide)
  have h2 : Step 10 10
      { counter := 1, workers := [WSt.idle], issued := [0], completedLog := [0] }
      { counter := 2, workers := [WSt.done], issued := [0], completedLog := [0] } :=
    Step.claimStop _ 0 (by decide) (by decide)
  exact Relation.ReflTransGen.head h0 (Relation.ReflTransGen.head h1
    (Relation.ReflTransGen.single h2))

/-- A complete 2-worker run at `size = 10`, `chunkSize = 10`: worker 1 does
the only chunk, both workers then observe exhaustion. -/
theorem trace10_2 : Steps 10 10 (initSys 2)
    { counter := 3, workers := [WSt.done, WSt.done], issued := [0],
      completedLog := [0] } := by
  have h0 : Step 10 10 (initSys 2)
      { counter := 1, workers := [WSt.idle, WSt.working 0], issued := [0],
        completedLog := [] } :=
    Step.claimWork (initSys 2) 1 (by decide) (by decide)
  have h1 : Step 10 10
      { counter := 1, workers := [WSt.idle, WSt.working 0], issued := [0],
        completedLog := [] }
      { counter := 1, workers := [WSt.idle, WSt.idle], issued := [0],
        completedLog := [0] } :=
    Step.complete _ 1 0 (by decide)
  have h2 : Step 10 10
      { counter := 1, workers := [WSt.idle, WSt.idle], issued := [0],
        completedLog := [0] }
      { counter := 2, workers := [WSt.done, WSt.idle], issued := [0],
        completedLog := [0] } :=
    Step.claimStop _ 0 (by decide) (by decide)
  have h3 : Step 10 10
      { counter := 2, workers := [WSt.done, WSt.idle], issued := [0],
        completedLog := [0] }
      { counter := 3, workers := [WSt.done, WSt.done], issued := [0],
        completedLog := [0] } :=
    Step.claimStop _ 1 (by decide) (by decide)
  exact Relation.ReflTransGen.head h0 (Relation.ReflTransGen.head h1
    (Relation.ReflTransGen.head h2 (Relation.ReflTransGen.single h3)))

/-- A complete 1-worker run at `size = 20`, `chunkSize = 10` (chunk size
divides the resource size): chunks 0 and 1 succeed. -/
theorem trace20_1 : Steps 20 10 (initSys 1)
    { counter := 3, workers := [WSt.done], issued := [0, 1],
      completedLog := [0, 1] } := by
  have h0 : Step 20 10 (initSys 1)
      { counter := 1, workers := [WSt.working 0], issued := [0], completedLog := [] } :=
    Step.claimWork (initSys 1) 0 (by decide) (by decide)
  have h1 : Step 20 10
      { counter := 1, workers := [WSt.working 0], issued := [0], completedLog := [] }
      { counter := 1, workers := [WSt.idle], issued := [0], completedLog := [0] } :=
    Step.complete _ 0 0 (by decide)
  have h2 : Step 20 10
      { counter := 1, workers := [WSt.idle], issued := [0], completedLog := [0] }
      { counter := 2, workers := [WSt.working 1], issued := [0, 1], completedLog := [0] } :=
    Step.claimWork _ 0 (by decide) (by decide)
  have h3 : Step 20 10
      { counter := 2, workers := [WSt.working 1], issued := [0, 1], completedLog := [0] }
      { counter := 2, workers := [WSt.idle], issued := [0, 1], completedLog := [0, 1] } :=
    Step.complete _ 0 1 (by decide)
  have h4 : Step 20 10
      { counter := 2, workers := [WSt.idle], issued := [0, 1], completedLog := [0, 1] }
      { counter := 3, workers := [WSt.done], issued := [0, 1], completedLog := [0, 1] } :=
    Step.claimStop _ 0 (by decide) (by decide)
  exact Relation.ReflTransGen.head h0 (Relation.ReflTransGen.head h1
    (Relation.ReflTransGen.head h2 (Relation.ReflTransGen.head h3
      (Relation.ReflTransGen.single h4))))

/-! ## C4: unique issuance, no re-issue, drain after failure -/

/-- **C4**.  In any reachable state of the concurrent system (no `uint64`
overflow in the chunk arithmetic), the allocation cursor issues every index
to at most one chunk request (the issued log never repeats); the chunk a
failed worker had claimed was issued exactly once and is never completed —
its byte range is never written — and once any surviving worker has drained
the allocator to exhaustion (terminated normally), every in-resource chunk
index has been issued. -/
theorem C4_no_reissue_and_drain (size c N : Nat) (s : Sys) (hc : 0 < c)
    (hov : (numChunks size c + N) * c < U64)
    (hreach : Steps size c (initSys N) s) (wf wd j : Nat)
    (hfail : s.workers[wf]? = some (.failedAt j))
    (hdone : s.workers[wd]? = some WSt.done) :
    s.issued.Nodup ∧ s.issued.count j = 1 ∧ j ∉ s.completedLog ∧
    ∀ i, i < numChunks size c → i ∈ s.issued := by
  have hinv := inv_reachable hc hov hreach
  obtain ⟨hjIss, hjNot, -⟩ := hinv.holders wf j (Or.inr hfail)
  have hnd := issued_nodup hinv
  refine ⟨hnd, List.count_eq_one_of_mem hnd hjIss, hjNot, ?_⟩
  intro i hi
  rw [issued_eq_range hc hov hinv ⟨wd, hdone⟩]
  exact List.mem_range.mpr hi

/-- Witness for C4 on the concrete failing run `trace25_fail`
(`size = 25`, `chunkSize = 10`, two workers, chunk 1 fails). -/
theorem C4_no_reissue_and_drain_witness :
    ([0, 1, 2] : List Nat).Nodup ∧ ([0, 1, 2] : List Nat).count 1 = 1 ∧
    1 ∉ ([0, 2] : List Nat) ∧
    ∀ i, i < numChunks 25 10 → i ∈ ([0, 1, 2] : List Nat) :=
  C4_no_reissue_and_drain 25 10 2
    { counter := 4, workers := [WSt.done, WSt.failedAt 1], issued := [0, 1, 2],
      completedLog := [0, 2] }
    (by decide) (by decide) trace25_fail 1 0 1 (by decide) (by decide)

/-! ## C8: allocation invariant under concurrency -/

/-- **C8**.  Allocation is invariant under concurrency: any two complete runs
(every worker terminated normally, at least one worker each, no `uint64`
overflow) — in particular a 1-worker run versus an `N`-worker run — issue
exactly the index log `[0, …, numChunks-1]`, so the collections of issued
byte ranges coincide as sets (indeed here even as sequences). -/
theorem C8_allocation_concurrency_invariant (size c N₁ N₂ : Nat)
    (s₁ s₂ : Sys) (hc : 0 < c)
    (hov₁ : (numChunks size c + N₁) * c < U64)
    (hov₂ : (numChunks size c + N₂) * c < U64)
    (hN₁ : 0 < N₁) (hN₂ : 0 < N₂)
    (h₁ : Steps size c (initSys N₁) s₁) (h₂ : Steps size c (initSys N₂) s₂)
    (hterm₁ : ∀ st ∈ s₁.workers, st = WSt.done)
    (hterm₂ : ∀ st ∈ s₂.workers, st = WSt.done) :
    s₁.issued = List.range (numChunks size c) ∧
    s₂.issued = List.range (numChunks size c) ∧
    ∀ r, (r ∈ s₁.issued.map fun i => (chunkStart c i, chunkEnd c i)) ↔
         (r ∈ s₂.issued.map fun i => (chunkStart c i, chunkEnd c i)) := by
  have hinv₁ := inv_reachable hc hov₁ h₁
  have hinv₂ := inv_reachable hc hov₂ h₂
  have e₁ := issued_eq_range hc hov₁ hinv₁ (done_mem hinv₁ hN₁ hterm₁)
  have e₂ := issued_eq_range hc hov₂ hinv₂ (done_mem hinv₂ hN₂ hterm₂)
  refine ⟨e₁, e₂, ?_⟩
  rw [e₁, e₂]
  exact fun r => Iff.rfl

/-- Witness for C8 on the concrete runs `trace10_1` (one worker) and
`trace10_2` (two workers) at `size = 10`, `chunkSize = 10`. -/
theorem C8_allocation_concurrency_invariant_witness :
    ([0] : List Nat) = List.range (numChunks 10 10) ∧
    ([0] : List Nat) = List.range (numChunks 10 10) ∧
    ∀ r, (r ∈ ([0] : List Nat).map fun i => (chunkStart 10 i, chunkEnd 10 i)) ↔
         (r ∈ ([0] : List Nat).map fun i => (chunkStart 10 i, chunkEnd 10 i)) :=
  C8_allocation_concurrency_invariant 10 10 1 2
    { counter := 2, workers := [WSt.done], issued := [0], completedLog := [0] }
    { counter := 3, workers := [WSt.done, WSt.done], issued := [0], completedLog := [0] }
    (by decide) (by decide) (by decide) (by decide) (by decide)
    trace10_1 trace10_2 (by decide) (by decide)

/-! ## C2: sum of completion notifications -/

/-- **C2** (amended).  In a complete run in which every worker succeeds, the
sum of the Completion Notification byte counts is
`ceil(size/chunkSize) * chunkSize` — the final chunk contributes its full
requested span `end - start + 1 = chunkSize`, overrun included, because the
code reports `int(end - start + 1)` (src/main.go line 153) without trimming
to the resource.  The sum therefore equals `size` exactly iff `chunkSize`
divides `size`. -/
theorem C2_total_notified (size c N : Nat) (s : Sys) (hc : 0 < c)
    (hov : (numChunks size c + N) * c < U64) (hN : 0 < N)
    (hreach : Steps size c (initSys N) s)
    (hterm : ∀ st ∈ s.workers, st = WSt.done) :
    (s.completedLog.map (notifBytes c)).sum = numChunks size c * c ∧
    ((s.completedLog.map (notifBytes c)).sum = size ↔ c ∣ size) := by
  have hinv := inv_reachable hc hov hreach
  have hdone := done_mem hinv hN hterm
  have hrange := issued_eq_range hc hov hinv hdone
  have hsub₂ : ∀ i ∈ s.issued, i ∈ s.completedLog := by
    intro i hi
    rcases hinv.issuedFate i hi with h | ⟨w, hw⟩
    · exact h
    · exfalso
      rcases hw with hw | hw <;>
      · obtain ⟨hlt, hget⟩ := List.getElem?_eq_some.mp hw
        have hd := hterm _ (List.getElem_mem hlt)
        rw [hd] at hget
        cases hget
  have hperm : s.completedLog.Perm s.issued :=
    (List.perm_ext_iff_of_nodup hinv.complNodup (issued_nodup hinv)).mpr
      (fun a => ⟨fun h => hinv.complSub a h, fun h => hsub₂ a h⟩)
  have hpermRange : s.completedLog.Perm (List.range (numChunks size c)) :=
    hrange ▸ hperm
  have hsum : (s.completedLog.map (notifBytes c)).sum
      = ((List.range (numChunks size c)).map (notifBytes c)).sum :=
    List.Perm.sum_eq (List.Perm.map _ hpermRange)
  have hconst : ((List.range (numChunks size c)).map (notifBytes c)).sum
      = numChunks size c * c := by
    rw [List.map_congr_left
        (fun i hi => notifBytes_eq_chunkSize hc hov (List.mem_range.mp hi)),
      List.map_const', List.sum_replicate, List.length_range, smul_eq_mul]
  refine ⟨hsum.trans hconst, ?_⟩
  rw [hsum, hconst]
  exact numChunks_mul_eq_iff hc

/-- Witness for the amended C2 on the all-success run `trace20_1`
(`size = 20`, `chunkSize = 10`): the notifications sum to `20 = 2 * 10`,
which here equals the size because 10 divides 20. -/
theorem C2_total_notified_witness :
    (([0, 1] : List Nat).map (notifBytes 10)).sum = numChunks 20 10 * 10 ∧
    ((([0, 1] : List Nat).map (notifBytes 10)).sum = 20 ↔ (10 : Nat) ∣ 20) :=
  C2_total_notified 20 10 1
    { counter := 3, workers := [WSt.done], issued := [0, 1], completedLog := [0, 1] }
    (by decide) (by decide) (by decide) trace20_1 (by decide)

/-- **C2 counterexample**.  The all-success 1-worker run `trace25_1` at
`size = 25`, `chunkSize = 10` completes chunks 0, 1, 2 and each notification
carries 10 bytes — the final chunk reports its overrun span — so the total
is 30, not the resource size 25. -/
theorem C2_counterexample :
    Steps 25 10 (initSys 1)
      { counter := 4, workers := [WSt.done], issued := [0, 1, 2],
        completedLog := [0, 1, 2] } ∧
    (∀ st ∈ [WSt.done], st = WSt.done) ∧
    (([0, 1, 2] : List Nat).map (notifBytes 10)).sum = 30 ∧ (30 : Nat) ≠ 25 :=
  ⟨trace25_1, by decide, by decide, by decide⟩

/-! ## C3 and C9: the worker iteration -/

/-- The notified span in `uint64` equals the mathematical span when it fits. -/
theorem notified_span_eq {start endOff : Nat} (hse : start ≤ endOff)
    (hspan : endOff - start + 1 < U64) :
    (sub64 endOff start + 1) % U64 = endOff - start + 1 := by
  unfold sub64
  have h1 : endOff + U64 - start = (endOff - start) + U64 := by omega
  have h2 : (endOff - start) % U64 = endOff - start :=
    Nat.mod_eq_of_lt (by omega)
  rw [h1, Nat.add_mod_right, h2, Nat.mod_eq_of_lt hspan]

/-- **C3**.  For a claimed chunk `[start, endOff]` (span fitting in
`uint64`), a Completion Notification is emitted iff request construction,
the HTTP call and the copy into the file all succeed without error, and it
carries exactly `endOff - start + 1` bytes — the requested span, a value
independent of the response body actually copied; no notification is ever
emitted for a failed chunk. -/
theorem C3_notification_iff_success (start endOff : Nat) (o : ChunkOracle)
    (hse : start ≤ endOff) (hspan : endOff - start + 1 < U64) :
    ((∃ v, Event.notified v ∈ workerChunk start endOff o) ↔
      (o.reqOk = true ∧ o.transportOk = true ∧ o.copyOk = true)) ∧
    (∀ v, Event.notified v ∈ workerChunk start endOff o →
      v = endOff - start + 1) := by
  have hsub := notified_span_eq hse hspan
  obtain ⟨r, t, resp, cp, pw⟩ := o
  rcases r <;> rcases t <;> rcases cp <;>
    simp [workerChunk, hsub]

/-- Witness for C3: chunk `[10, 19]`, request built, response delivered,
copy successful — the notification carries 10 bytes. -/
theorem C3_notification_iff_success_witness :
    ((∃ v, Event.notified v ∈ workerChunk 10 19
        ⟨true, true, ⟨206, [1, 2, 3]⟩, true, []⟩) ↔
      (true = true ∧ true = true ∧ true = true)) ∧
    (∀ v, Event.notified v ∈ workerChunk 10 19
        ⟨true, true, ⟨206, [1, 2, 3]⟩, true, []⟩ → v = 19 - 10 + 1) :=
  C3_notification_iff_success 10 19 ⟨true, true, ⟨206, [1, 2, 3]⟩, true, []⟩
    (by decide) (by decide)

/-- **C9** (implicit).  A worker treats any HTTP response delivered without
a transport error as success regardless of its status code: the observable
events of an iteration are literally independent of `resp.statusCode`, and
whenever the copy also succeeds the body is written at the chunk's start
offset and a notification for `endOff - start + 1` bytes is emitted — also
for a 200 from a server that ignored the `Range` header, or an error page. -/
theorem C9_status_code_ignored (start endOff : Nat) (o : ChunkOracle)
    (sc : Nat) (hse : start ≤ endOff) (hspan : endOff - start + 1 < U64) :
    workerChunk start endOff { o with resp := { o.resp with statusCode := sc } }
      = workerChunk start endOff o ∧
    (o.reqOk = true → o.transportOk = true → o.copyOk = true →
      workerChunk start endOff o
        = [Event.wrote start o.resp.body, Event.notified (endOff - start + 1)]) := by
  have hsub := notified_span_eq hse hspan
  refine ⟨rfl, ?_⟩
  intro hr ht hcp
  simp [workerChunk, hr, ht, hcp, hsub]

/-- Witness for C9: a 404 error page delivered for chunk `[0, 9]` is written
to the file at offset 0 and reported as 10 completed bytes; replacing the
status code changes nothing. -/
theorem C9_status_code_ignored_witness :
    workerChunk 0 9 ⟨true, true, ⟨200, [7, 7]⟩, true, []⟩
      = workerChunk 0 9 ⟨true, true, ⟨404, [7, 7]⟩, true, []⟩ ∧
    (true = true → true = true → true = true →
      workerChunk 0 9 ⟨true, true, ⟨404, [7, 7]⟩, true, []⟩
        = [Event.wrote 0 [7, 7], Event.notified (9 - 0 + 1)]) :=
  C9_status_code_ignored 0 9 ⟨true, true, ⟨404, [7, 7]⟩, true, []⟩ 200
    (by decide) (by decide)

/-! ## C5, C7, C10: the run start -/

/-- **C5**.  Once the `Exists` gate has passed, a size-resolution failure —
HEAD transport error or missing `Content-Length` — or a destination-file
open failure aborts the run before any worker starts, with a printed message
and a nonzero exit status.  (The transport-error path aborts through the nil
dereference of `resp.Header` in `GetFileSize`, a panic: runtime message and
exit status 2; the missing-header and open-failure paths through
`log.Fatal`, exit status 1.)  No worker is spawned, so no GET is possible. -/
theorem C5_fatal_start (e : Env)
    (hgate : Exists e.fileStat e.override = true)
    (hbad : e.head = .transportErr ∨ e.head = .noHeader ∨ e.openOk = false) :
    exitNonzero (mainRun e) = true ∧ getPossible (mainRun e) = false := by
  obtain ⟨st, ov, h, op⟩ := e
  cases h <;> cases op <;>
    simp_all [mainRun, GetFileSize, exitNonzero, getPossible]

/-- Witness for C5: file absent, HEAD answered without `Content-Length`. -/
theorem C5_fatal_start_witness :
    exitNonzero (mainRun ⟨.absent, false, .noHeader, true⟩) = true ∧
    getPossible (mainRun ⟨.absent, false, .noHeader, true⟩) = false :=
  C5_fatal_start ⟨.absent, false, .noHeader, true⟩ (by decide)
    (Or.inr (Or.inl rfl))

/-- **C7**.  If the destination file already exists and the override flag is
false, `Exists` returns `false` and `main` returns at once: the run ends
immediately, the HEAD request is never attempted and no worker — hence no
GET — is ever started. -/
theorem C7_existing_no_requests (h : HeadOutcome) (op : Bool) :
    mainRun { fileStat := .present, override := false, head := h, openOk := op }
      = .earlyReturn ∧
    headAttempted { fileStat := .present, override := false, head := h, openOk := op }
      = false ∧
    getPossible (mainRun
      { fileStat := .present, override := false, head := h, openOk := op })
      = false :=
  ⟨rfl, rfl, rfl⟩

/-- **C10** (implicit).  A stat error other than not-exist (e.g. a
permission error) makes `Exists` return `false` regardless of the override
flag, so `main` returns immediately: a plain `return`, hence exit status
zero, with no HEAD attempted and no worker — no HTTP request at all. -/
theorem C10_stat_error_aborts (ov : Bool) (h : HeadOutcome) (op : Bool) :
    mainRun { fileStat := .statError, override := ov, head := h, openOk := op }
      = .earlyReturn ∧
    exitNonzero RunOutcome.earlyReturn = false ∧
    headAttempted { fileStat := .statError, override := ov, head := h, openOk := op }
      = false ∧
    getPossible (mainRun
      { fileStat := .statError, override := ov, head := h, openOk := op })
      = false :=
  ⟨rfl, rfl, rfl, rfl⟩

/-! ## C6: the shutdown ordering and the unsynchronised terminal print -/

/-- The silent shutdown interleaving: `main` waits for the workers, closes
the conduit, closes the file and exits before the aggregator goroutine is
ever scheduled again — the terminal print never happens. -/
theorem shutTraceSilent : ShutSteps shutInit
    { wgWaited := true, chanClosed := true, pending := [], aggPrinted := false,
      fileClosed := true, mainExited := true } := by
  have h0 : ShutStep shutInit
      ⟨true, false, [], false, false, false⟩ := ShutStep.waitDone _ rfl
  have h1 : ShutStep ⟨true, false, [], false, false, false⟩
      ⟨true, true, [], false, false, false⟩ := ShutStep.closeChan _ rfl rfl
  have h2 : ShutStep ⟨true, true, [], false, false, false⟩
      ⟨true, true, [], false, true, false⟩ := ShutStep.closeFile _ rfl rfl
  have h3 : ShutStep ⟨true, true, [], false, true, false⟩
      ⟨true, true, [], false, true, true⟩ := ShutStep.exitMain _ rfl rfl
  exact Relation.ReflTransGen.head h0 (Relation.ReflTransGen.head h1
    (Relation.ReflTransGen.head h2 (Relation.ReflTransGen.single h3)))

/-- The happy shutdown interleaving: the aggregator gets scheduled between
the conduit close and the process exit and prints "Download complete". -/
theorem shutTraceHappy : ShutSteps shutInit
    { wgWaited := true, chanClosed := true, pending := [], aggPrinted := true,
      fileClosed := true, mainExited := true } := by
  have h0 : ShutStep shutInit
      ⟨true, false, [], false, false, false⟩ := ShutStep.waitDone _ rfl
  have h1 : ShutStep ⟨true, false, [], false, false, false⟩
      ⟨true, true, [], false, false, false⟩ := ShutStep.closeChan _ rfl rfl
  have h2 : ShutStep ⟨true, true, [], false, false, false⟩
      ⟨true, true, [], true, false, false⟩ := ShutStep.aggFinish _ rfl rfl rfl rfl
  have h3 : ShutStep ⟨true, true, [], true, false, false⟩
      ⟨true, true, [], true, true, false⟩ := ShutStep.closeFile _ rfl rfl
  have h4 : ShutStep ⟨true, true, [], true, true, false⟩
      ⟨true, true, [], true, true, true⟩ := ShutStep.exitMain _ rfl rfl
  exact Relation.ReflTransGen.head h0 (Relation.ReflTransGen.head h1
    (Relation.ReflTransGen.head h2 (Relation.ReflTransGen.head h3
      (Relation.ReflTransGen.single h4))))

/-- **C6 counterexample**.  There is a complete execution in which the
process exits without the Aggregator ever emitting its terminal "download
complete" signal: the silent interleaving reaches a state with `mainExited`
and `aggPrinted = false`, from which no step at all is possible — the
terminal signal was not emitted before the run ended and never will be. -/
theorem C6_counterexample :
    ShutSteps shutInit
      { wgWaited := true, chanClosed := true, pending := [], aggPrinted := false,
        fileClosed := true, mainExited := true } ∧
    ∀ s', ¬ ShutStep
      { wgWaited := true, chanClosed := true, pending := [], aggPrinted := false,
        fileClosed := true, mainExited := true } s' := by
  refine ⟨shutTraceSilent, ?_⟩
  intro s' hs
  cases hs <;> simp_all

/-- **C6** (amended).  The deferred calls of `main` run in LIFO order, so in
every execution the completion conduit is closed only after `wg.Wait()` has
returned — after every worker has terminated — and the process exits only
after the conduit (and the file) are closed.  Conduit closure lets the
Aggregator finish, and in some interleavings it does print its terminal
signal before the process exits; but nothing forces this, so the terminal
signal is not guaranteed to be emitted before the run ends. -/
theorem C6_close_after_workers (s : ShutSt) (h : ShutSteps shutInit s) :
    ((s.chanClosed = true → s.wgWaited = true) ∧
     (s.fileClosed = true → s.chanClosed = true) ∧
     (s.mainExited = true → s.fileClosed = true)) ∧
    ShutSteps shutInit
      { wgWaited := true, chanClosed := true, pending := [], aggPrinted := true,
        fileClosed := true, mainExited := true } := by
  refine ⟨?_, shutTraceHappy⟩
  induction h with
  | refl => simp [shutInit]
  | tail _ hstep ih =>
    obtain ⟨i1, i2, i3⟩ := ih
    cases hstep with
    | waitDone h => exact ⟨fun _ => rfl, i2, i3⟩
    | closeChan h1 h2 => exact ⟨fun _ => h1, fun _ => rfl, i3⟩
    | closeFile h1 h2 => exact ⟨i1, fun _ => h1, fun _ => rfl⟩
    | exitMain h1 h2 => exact ⟨i1, i2, fun _ => h1⟩
    | aggRecv x rest h1 h2 => exact ⟨i1, i2, i3⟩
    | aggFinish h1 h2 h3 h4 => exact ⟨i1, i2, i3⟩

/-- Witness for the amended C6, applied to the silent final state reached by
`shutTraceSilent`. -/
theorem C6_close_after_workers_witness :
    ((true = true → true = true) ∧ (true = true → true = true) ∧
     (true = true → true = true)) ∧
    ShutSteps shutInit
      { wgWaited := true, chanClosed := true, pending := [], aggPrinted := true,
        fileClosed := true, mainExited := true } :=
  C6_close_after_workers
    { wgWaited := true, chanClosed := true, pending := [], aggPrinted := false,
      fileClosed := true, mainExited := true }
    shutTraceSilent

end Downloader
